import Mathlib

/-
Verification of the eRegistries dashboard-statistics pipeline (dashcalc.py and
eregistries-analysis.py).  The statistics core of dashcalc.py is embedded
shallowly below: monthly values are exact rationals, months are integers
(the sequential month numbers used by the script), and the output data values
produced by putOut are records in a list.  Python rounding (the built-in
round, which rounds half to even) is modelled by pyRound, and Python int()
truncation by intTrunc.
-/

namespace Dashcalc

/-- Claim-independent model of one analytics cell: the value and denominator
columns of one analytics row, as stored in
input[peerGroup][indicator][orgUnit][period] (dashcalc.py line 317). -/
structure Entry where
  value : ℚ
  denominator : ℚ
deriving DecidableEq

/-- Model of one orgUnit of input[peerGroup][indicator]: its id together with
its period dictionary (a partial map from month number to Entry). -/
structure OrgUnitData where
  id : String
  periods : Int → Option Entry

/-- Python round applied to an exact rational: round to the nearest integer,
ties to the even integer (banker rounding, the semantics of the Python
built-in round on floats). -/
def pyRound (q : ℚ) : ℤ :=
  let f := ⌊q⌋
  let r := q - (f : ℚ)
  if r < 1/2 then f
  else if 1/2 < r then f + 1
  else if f % 2 = 0 then f else f + 1

/-- Python statistics.mean on a list of (float) values, modelled exactly. -/
def statsMean (values : List ℚ) : ℚ := values.sum / (values.length : ℚ)

/-- Python int() applied to a (float) rational: truncation toward zero. -/
def intTrunc (q : ℚ) : ℤ := Int.tdiv q.num (q.den : ℤ)

/-- dashcalc.py lines 386-391: threeMonths(periods, monthNumber, valueType)
collects the entries present at monthNumber-2, monthNumber-1, monthNumber,
in that order, projected by valueType. -/
def threeMonths (periods : Int → Option Entry) (monthNumber : Int)
    (valueType : Entry → ℚ) : List ℚ :=
  [monthNumber - 2, monthNumber - 1, monthNumber].filterMap
    (fun m => (periods m).map valueType)

/-- The value window of one orgUnit: threeMonths(periods, monthNumber, value)
(dashcalc.py lines 401 and 423). -/
def rollingValues (ou : OrgUnitData) (monthNumber : Int) : List ℚ :=
  threeMonths ou.periods monthNumber Entry.value

/-- dashcalc.py line 406: average = int(round(statistics.mean(values))). -/
def rollingAverage (ou : OrgUnitData) (monthNumber : Int) : ℤ :=
  pyRound (statsMean (rollingValues ou monthNumber))

/-- dashcalc.py lines 398-410: the averages list built by the first orgUnit
loop, one entry per orgUnit whose window is nonempty, in list order. -/
def peerAverages (orgUnits : List OrgUnitData) (monthNumber : Int) : List ℤ :=
  orgUnits.filterMap (fun ou =>
    let values := rollingValues ou monthNumber
    if values.isEmpty then none else some (pyRound (statsMean values)))

/-- dashcalc.py line 411: count = len(averages). -/
def peerCount (orgUnits : List OrgUnitData) (monthNumber : Int) : ℕ :=
  (peerAverages orgUnits monthNumber).length

/-- dashcalc.py line 415: averages.sort() sorts the averages in place;
after this line the name averages denotes the sorted list. -/
def sortedPeerAverages (orgUnits : List OrgUnitData) (monthNumber : Int) : List ℤ :=
  List.insertionSort (fun a b => a ≤ b) (peerAverages orgUnits monthNumber)

/-- dashcalc.py line 416: q1 = int(round(averages[int((count-1)*.25)])).
The elements are already integers, so the int(round(..)) is the identity;
int((count-1)*.25) is exact float arithmetic and truncates to (count-1)/4. -/
def quartile1 (orgUnits : List OrgUnitData) (monthNumber : Int) : ℤ :=
  (sortedPeerAverages orgUnits monthNumber).getD ((peerCount orgUnits monthNumber - 1) / 4) 0

/-- dashcalc.py line 417: q2 = int(round(averages[int((count-1)*.5)])). -/
def quartile2 (orgUnits : List OrgUnitData) (monthNumber : Int) : ℤ :=
  (sortedPeerAverages orgUnits monthNumber).getD ((peerCount orgUnits monthNumber - 1) / 2) 0

/-- dashcalc.py line 418: q3 = int(round(averages[int((count-1)*.75)])). -/
def quartile3 (orgUnits : List OrgUnitData) (monthNumber : Int) : ℤ :=
  (sortedPeerAverages orgUnits monthNumber).getD (3 * (peerCount orgUnits monthNumber - 1) / 4) 0

/-- Population variance of a list, the variance computed by numpy.std with
the default ddof = 0: mean of the squared deviations from the mean. -/
def popVariance (l : List ℚ) : ℚ :=
  ((l.map (fun x => (x - statsMean l)^2)).sum) / (l.length : ℚ)

/-- Rounding of the square root of a nonnegative rational to the nearest
natural number, ties to even: the exact value of round(sqrt(v)).  With
v = p/q it finds the least n with (2n+1)^2 >= 4p/q via Nat.sqrt, then
resolves the exact tie 4v = (2n+1)^2 toward the even candidate. -/
def roundSqrtQ (v : ℚ) : ℕ :=
  let p := v.num.toNat
  let q := v.den
  let c := (4 * p + q - 1) / q
  if c = 0 then 0
  else
    let s := Nat.sqrt (c - 1) + 1
    let n := s / 2
    if 4 * p = q * (2 * n + 1)^2 ∧ n % 2 = 1 then n + 1 else n

/-- dashcalc.py line 419: stddev = int(round(numpy.std(averages))) or 0.
numpy.std is the population standard deviation; the trailing `or 0` maps the
integer 0 to 0 and is the identity on values.  Modelled exactly as the
rounded square root of the population variance. -/
def numpyStdRounded (l : List ℚ) : ℕ := roundSqrtQ (popVariance l)

/-- The stddev value emitted for a peer group (dashcalc.py line 419),
computed from the sorted averages list. -/
def groupStddev (orgUnits : List OrgUnitData) (monthNumber : Int) : ℤ :=
  (numpyStdRounded ((sortedPeerAverages orgUnits monthNumber).map (fun a : ℤ => (a : ℚ))) : ℤ)

/-- dashcalc.py lines 399-402: allPeersValues, the pooled list of every
window value of every orgUnit of the peer group. -/
def allPeersValues (orgUnits : List OrgUnitData) (monthNumber : Int) : List ℚ :=
  orgUnits.flatMap (fun ou => rollingValues ou monthNumber)

/-- dashcalc.py line 414: allPeersMean = int(round(statistics.mean(allPeersValues))). -/
def allPeersMean (orgUnits : List OrgUnitData) (monthNumber : Int) : ℤ :=
  pyRound (statsMean (allPeersValues orgUnits monthNumber))

/-- dashcalc.py line 427: bigRank = sum([a <= mean for a in averages]). -/
def bigRankOf (averages : List ℤ) (mean : ℤ) : ℕ :=
  (averages.filter (fun a => a ≤ mean)).length

/-- dashcalc.py line 429: smallRank = sum([a > mean for a in averages]) + 1. -/
def smallRankOf (averages : List ℤ) (mean : ℤ) : ℕ :=
  (averages.filter (fun a => mean < a)).length + 1

/-- dashcalc.py line 428: percentile = int(round(100*float(bigRank)/count)). -/
def percentileOf (bigRank count : ℕ) : ℤ :=
  pyRound (100 * (bigRank : ℚ) / (count : ℚ))

/-- dashcalc.py line 430: denominatorSum = int(sum(threeMonths(periods,
monthNumber, denominator))). -/
def denominatorSum3 (ou : OrgUnitData) (monthNumber : Int) : ℤ :=
  intTrunc (threeMonths ou.periods monthNumber Entry.denominator).sum

/-- One output data value appended by putOut (dashcalc.py lines 368-376).
The period is kept as the sequential month number (putOut formats it with
toMonth, a bijective presentation detail). -/
structure OutRecord where
  orgUnit : String
  period : Int
  dataElement : String
  value : ℤ
deriving DecidableEq

/-- dashcalc.py lines 422-441: the eleven data values put out for one
orgUnit of the peer group, or none when its window is empty.  The group
statistics are loop invariants of the source and are recomputed here from
(orgUnits, monthNumber). -/
def orgUnitRecords (indicator : String) (orgUnits : List OrgUnitData)
    (monthNumber : Int) (ou : OrgUnitData) : List OutRecord :=
  let values := rollingValues ou monthNumber
  if values.isEmpty then []
  else
    let sortedAverages := sortedPeerAverages orgUnits monthNumber
    let count := peerCount orgUnits monthNumber
    let mean := pyRound (statsMean values)
    let bigRank := bigRankOf sortedAverages mean
    let percentile := percentileOf bigRank count
    let smallRank := smallRankOf sortedAverages mean
    let uidBase := "de" ++ indicator.drop 4
    [ { orgUnit := ou.id, period := monthNumber, dataElement := uidBase ++ "Av", value := mean },
      { orgUnit := ou.id, period := monthNumber, dataElement := uidBase ++ "Q1",
        value := quartile1 orgUnits monthNumber },
      { orgUnit := ou.id, period := monthNumber, dataElement := uidBase ++ "Q2",
        value := quartile2 orgUnits monthNumber },
      { orgUnit := ou.id, period := monthNumber, dataElement := uidBase ++ "Q3",
        value := quartile3 orgUnits monthNumber },
      { orgUnit := ou.id, period := monthNumber, dataElement := uidBase ++ "DR", value := percentile },
      { orgUnit := ou.id, period := monthNumber, dataElement := uidBase ++ "sz", value := (count : ℤ) },
      { orgUnit := ou.id, period := monthNumber, dataElement := uidBase ++ "or", value := (bigRank : ℤ) },
      { orgUnit := ou.id, period := monthNumber, dataElement := uidBase ++ "sr", value := (smallRank : ℤ) },
      { orgUnit := ou.id, period := monthNumber, dataElement := uidBase ++ "sd",
        value := groupStddev orgUnits monthNumber },
      { orgUnit := ou.id, period := monthNumber, dataElement := uidBase ++ "DM",
        value := allPeersMean orgUnits monthNumber },
      { orgUnit := ou.id, period := monthNumber, dataElement := uidBase ++ "d3",
        value := denominatorSum3 ou monthNumber } ]

/-- dashcalc.py lines 397-442: the processing of one (peer group, indicator,
target month): if no orgUnit has data in the window (count == 0, line 412)
nothing is put out, otherwise the second orgUnit loop emits the records of
every orgUnit with a nonempty window. -/
def processIndicator (indicator : String) (orgUnits : List OrgUnitData)
    (monthNumber : Int) : List OutRecord :=
  if peerCount orgUnits monthNumber = 0 then []
  else orgUnits.flatMap (orgUnitRecords indicator orgUnits monthNumber)

/-! Area aggregation (dashcalc.py lines 324-330, 396, 408-410 and 444-457).
Python dictionaries are modelled as association lists in insertion order,
which is exactly the iteration order of a Python dict. -/

/-- Assignment d[k] = f(d.get(k, default)) on an association list: update in
place if the key is present, append a new binding otherwise. -/
def updateAssoc {α : Type} (l : List (String × α)) (k : String) (f : α → α)
    (d : α) : List (String × α) :=
  match l with
  | [] => [(k, f d)]
  | p :: rest => if p.1 = k then (k, f p.2) :: rest else p :: updateAssoc rest k f d

/-- Lookup in an association list, i.e. d.get(k). -/
def assocGet {α : Type} (l : List (String × α)) (k : String) : Option α :=
  match l with
  | [] => none
  | p :: rest => if p.1 = k then some p.2 else assocGet rest k

/-- The nested dictionary areas of dashcalc.py line 396:
area name to (orgUnit to list of averages). -/
abbrev AreaMap := List (String × List (String × List ℤ))

/-- dashcalc.py lines 324-330: addAreaValue(areas, area, orgUnit, value)
appends value to areas[area][orgUnit], creating the inner containers as
needed. -/
def addAreaValue (areas : AreaMap) (area orgUnit : String) (value : ℤ) : AreaMap :=
  updateAssoc areas area
    (fun orgUnits => updateAssoc orgUnits orgUnit (fun l => l ++ [value]) []) []

/-- dashcalc.py lines 396-410, restricted to the area bookkeeping: loop over
the indicators of the peer group and, within each, over its orgUnits; every
orgUnit with a nonempty window whose indicator is mapped to an area
contributes its rolling average via addAreaValue. -/
def buildAreas (indicators : List (String × List OrgUnitData))
    (indicatorAreas : String → Option String) (monthNumber : Int) : AreaMap :=
  indicators.foldl (fun areas p =>
    p.2.foldl (fun areas2 ou =>
      if (rollingValues ou monthNumber).isEmpty then areas2
      else
        match indicatorAreas p.1 with
        | some area => addAreaValue areas2 area ou.id (rollingAverage ou monthNumber)
        | none => areas2) areas) []

/-- Python statistics.mean applied to a list of integer averages. -/
def meanZ (l : List ℤ) : ℚ := statsMean (l.map (fun z : ℤ => (z : ℚ)))

/-- dashcalc.py lines 380-384: putOutByName emits one record when the data
element name resolves through elementNameId, and nothing otherwise. -/
def putOutByName (elementNameId : String → Option String) (orgUnit : String)
    (monthNumber : Int) (dataElementName : String) (value : ℤ) : List OutRecord :=
  match elementNameId dataElementName with
  | some i => [⟨orgUnit, monthNumber, i, value⟩]
  | none => []

/-- dashcalc.py lines 444-457: the per-area output loop. areaAverages is the
sorted list of the per-orgUnit rounded means; each orgUnit is emitted its
overall average and its overall rank (a big-is-best percentile). -/
def processArea (elementNameId : String → Option String) (monthNumber : Int)
    (area : String) (orgUnitAverages : List (String × List ℤ)) : List OutRecord :=
  let areaAverages := List.insertionSort (fun a b => a ≤ b)
    (orgUnitAverages.map (fun p => pyRound (meanZ p.2)))
  let count := areaAverages.length
  orgUnitAverages.flatMap (fun p =>
    let mean := pyRound (meanZ p.2)
    let bigRank := (areaAverages.filter (fun a => a ≤ mean)).length
    let percentile := pyRound (100 * (bigRank : ℚ) / (count : ℚ))
    putOutByName elementNameId p.1 monthNumber ("Overall Average: " ++ area) mean ++
      putOutByName elementNameId p.1 monthNumber ("Overall Rank: " ++ area) percentile)

/-- dashcalc.py lines 395-459: all records put out for one peer group and
one target month: the per-indicator records of every indicator, followed by
the per-area records accumulated over those indicators. -/
def processPeerGroup (indicators : List (String × List OrgUnitData))
    (indicatorAreas : String → Option String) (monthNumber : Int)
    (elementNameId : String → Option String) : List OutRecord :=
  indicators.flatMap (fun p => processIndicator p.1 p.2 monthNumber) ++
    (buildAreas indicators indicatorAreas monthNumber).flatMap
      (fun q => processArea elementNameId monthNumber q.1 q.2)

/-! Characterisation helpers used to state and prove what the accumulated
area dictionaries contain. -/

/-- The (area, orgUnit, average) contribution of one orgUnit of one
indicator to the areas dictionary: one triple when the window is nonempty
and the indicator is mapped to an area, nothing otherwise. -/
def ouTriple (indicatorAreas : String → Option String) (monthNumber : Int)
    (indicator : String) (ou : OrgUnitData) : List (String × String × ℤ) :=
  if (rollingValues ou monthNumber).isEmpty then []
  else
    match indicatorAreas indicator with
    | some area => [(area, ou.id, rollingAverage ou monthNumber)]
    | none => []

/-- The stream of contributions to the areas dictionary, in the order the
source performs them. -/
def contribTriples (indicators : List (String × List OrgUnitData))
    (indicatorAreas : String → Option String) (monthNumber : Int) :
    List (String × String × ℤ) :=
  indicators.flatMap (fun p => p.2.flatMap (ouTriple indicatorAreas monthNumber p.1))

/-- The per-indicator rolling averages contributed to (area, orgUnit):
for each indicator mapped to this area, the rolling average of each of its
orgUnits named orgUnit whose window is nonempty, in source order. -/
def areaContributions (indicators : List (String × List OrgUnitData))
    (indicatorAreas : String → Option String) (monthNumber : Int)
    (area orgUnit : String) : List ℤ :=
  ((contribTriples indicators indicatorAreas monthNumber).filter
    (fun t => t.1 = area ∧ t.2.1 = orgUnit)).map (fun t => t.2.2)

/-- The first occurrence of each element of a list, in order: the key order
of a Python dict built by repeated assignment. -/
def firstOccs : List String → List String
  | [] => []
  | x :: xs => x :: (firstOccs xs).filter (fun y => y ≠ x)

/-- The orgUnits having at least one contribution to the given area, in
first-contribution order: the keys of areas[area]. -/
def areaFacilities (indicators : List (String × List OrgUnitData))
    (indicatorAreas : String → Option String) (monthNumber : Int)
    (area : String) : List String :=
  firstOccs (((contribTriples indicators indicatorAreas monthNumber).filter
    (fun t => t.1 = area)).map (fun t => t.2.1))

/-- Generic accumulation of a stream of keyed items into an association
list, each item updating the value at its key by stepV from default d.
Both dictionary levels of buildAreas are instances of this scheme. -/
def accumAssoc {α β : Type} (stepV : β → α → β) (d : β)
    (ts : List (String × α)) : List (String × β) :=
  ts.foldl (fun acc t => updateAssoc acc t.1 (fun cur => stepV cur t.2) d) []

/-- The closed form of accumAssoc: one binding per distinct key in first
occurrence order, holding the fold of stepV over the values at that key. -/
def assocCharact {α β : Type} (stepV : β → α → β) (d : β)
    (ts : List (String × α)) : List (String × β) :=
  (firstOccs (ts.map (fun t => t.1))).map
    (fun k => (k, ((ts.filter (fun t => t.1 = k)).map (fun t => t.2)).foldl stepV d))

/-! Peer group resolution in group-set mode (dashcalc.py lines 220-236). -/

/-- One organisation unit as returned by the group-set query: id, hierarchy
level, path (a string of 12-character segments, a slash followed by an
11-character uid per ancestor), and optional closure date. -/
structure Facility where
  id : String
  level : ℕ
  path : String
  closedDate : Option String

/-- Python string slicing s[a:b] for nonnegative clamped bounds. -/
def sliceStr (s : String) (a b : ℕ) : String :=
  String.mk ((s.toList.drop a).take (b - a))

/-- dashcalc.py line 227: a facility is used unless its closedDate is
present and earlier than the first day of the current month (string
comparison of ISO dates). -/
def isOpenFacility (startOfCurrentMonth : String) (f : Facility) : Bool :=
  match f.closedDate with
  | none => true
  | some d => startOfCurrentMonth ≤ d

/-- dashcalc.py lines 227-234: the peer group key assigned to one facility
of one orgUnit group, or none when the facility is skipped.  Above
orgUnitLevel the key uses the ancestor at orgUnitLevel taken from the path
(path[12L-11:12L]); at or below orgUnitLevel but above level 1 it uses the
parent (path[-23:-12]); level 1 or below is skipped (path too short to have
a parent). -/
def groupSetAssign (orgUnitLevel : ℕ) (startOfCurrentMonth : String)
    (ouGroupName : String) (f : Facility) : Option String :=
  if isOpenFacility startOfCurrentMonth f then
    if orgUnitLevel < f.level then
      some (sliceStr f.path (12 * orgUnitLevel - 11) (12 * orgUnitLevel) ++ "-" ++ ouGroupName)
    else if 1 < f.level then
      some (sliceStr f.path (f.path.length - 23) (f.path.length - 12) ++ "-" ++ ouGroupName)
    else none
  else none

/-- dashcalc.py lines 220-236: peerGroupMap built in group-set mode by
looping over the orgUnit groups of the group set and their facilities,
assigning peerGroupMap[facility.id] = key for each facility given a key. -/
def buildPeerGroupMap (orgUnitLevel : ℕ) (startOfCurrentMonth : String)
    (groupSet : List (String × List Facility)) : List (String × String) :=
  groupSet.foldl (fun m g =>
    g.2.foldl (fun m2 f =>
      match groupSetAssign orgUnitLevel startOfCurrentMonth g.1 f with
      | some key => updateAssoc m2 f.id (fun _ => key) key
      | none => m2) m) []

/-- Modelled from the spec wording of claim C6 for comparison with the
code: rounding to the nearest integer with ties away from zero. -/
def roundHalfAwayFromZero (q : ℚ) : ℤ :=
  if 0 ≤ q then ⌊q + 1/2⌋ else ⌈q - 1/2⌉

/-! Concrete scenarios used by witnesses and counterexamples. -/

/-- An orgUnit holding the constant value v (denominator 1) in the three
window months 8, 9 and 10. -/
def constOu (i : String) (v : ℚ) : OrgUnitData :=
  ⟨i, fun k =>
    if k = 8 then some ⟨v, 1⟩
    else if k = 9 then some ⟨v, 1⟩
    else if k = 10 then some ⟨v, 1⟩ else none⟩

/-- The peer group of the end-to-end spec scenario: averages 100, 200, 300. -/
def sampleABC : List OrgUnitData :=
  [constOu "A" 100, constOu "B" 200, constOu "C" 300]

/-- A four-facility peer group with averages 10, 20, 30, 40. -/
def sample4 : List OrgUnitData :=
  [constOu "D" 10, constOu "E" 20, constOu "F" 30, constOu "G" 40]

/-- An orgUnit with values only in months 9 and 10 (a two-month window for
target month 10, exact mean 5/2). -/
def partialOu : OrgUnitData :=
  ⟨"P", fun k => if k = 9 then some ⟨2, 1⟩ else if k = 10 then some ⟨3, 1⟩ else none⟩

/-- An orgUnit with no data at all. -/
def emptyOu : OrgUnitData := ⟨"E0", fun _ => none⟩

/-- A two-facility group in which one facility has no window data. -/
def sampleC3 : List OrgUnitData := [emptyOu, partialOu]

/-- Two indicators with averages 10 and 20 for the same facility, both
mapped to the area Nutrition. -/
def sampleAreaIndicators : List (String × List OrgUnitData) :=
  [("dashI1", [constOu "A" 10]), ("dashI2", [constOu "A" 20])]

/-- The indicator-to-area mapping of the area scenario. -/
def sampleAreas : String → Option String :=
  fun i => if i = "dashI1" ∨ i = "dashI2" then some "Nutrition" else none

/-- The data element name resolution of the area scenario. -/
def sampleNames : String → Option String :=
  fun n =>
    if n = "Overall Average: Nutrition" then some "deAvgNut"
    else if n = "Overall Rank: Nutrition" then some "deRankNut" else none

/-- A facility at level 2 with a well-formed two-segment path, open. -/
def c5facility : Facility := ⟨"fac1", 2, "/AAAAAAAAAAA/BBBBBBBBBBB", none⟩

/-- A facility at level 1, open. -/
def c5level1 : Facility := ⟨"fac2", 1, "/AAAAAAAAAAA", none⟩

/-! General helper lemmas about the embedded pipeline. -/

theorem mem_peerAverages (orgUnits : List OrgUnitData) (m : Int) (ou : OrgUnitData)
    (hmem : ou ∈ orgUnits) (hdata : rollingValues ou m ≠ []) :
    rollingAverage ou m ∈ peerAverages orgUnits m := by
  refine List.mem_filterMap.mpr ⟨ou, hmem, ?_⟩
  simp [List.isEmpty_eq_false.mpr hdata, rollingAverage]

theorem peerCount_ne_zero (orgUnits : List OrgUnitData) (m : Int) (ou : OrgUnitData)
    (hmem : ou ∈ orgUnits) (hdata : rollingValues ou m ≠ []) :
    peerCount orgUnits m ≠ 0 := by
  have h := mem_peerAverages orgUnits m ou hmem hdata
  intro hc
  rw [peerCount, List.length_eq_zero] at hc
  rw [hc] at h
  exact (List.not_mem_nil _) h

theorem sortedPeerAverages_perm (orgUnits : List OrgUnitData) (m : Int) :
    (sortedPeerAverages orgUnits m).Perm (peerAverages orgUnits m) :=
  List.perm_insertionSort _ _

theorem sortedPeerAverages_length (orgUnits : List OrgUnitData) (m : Int) :
    (sortedPeerAverages orgUnits m).length = peerCount orgUnits m :=
  (sortedPeerAverages_perm orgUnits m).length_eq

theorem bigRankOf_sorted (orgUnits : List OrgUnitData) (m : Int) (x : ℤ) :
    bigRankOf (sortedPeerAverages orgUnits m) x = bigRankOf (peerAverages orgUnits m) x := by
  unfold bigRankOf
  rw [← List.countP_eq_length_filter, ← List.countP_eq_length_filter]
  exact (sortedPeerAverages_perm orgUnits m).countP_eq _

theorem smallRankOf_sorted (orgUnits : List OrgUnitData) (m : Int) (x : ℤ) :
    smallRankOf (sortedPeerAverages orgUnits m) x = smallRankOf (peerAverages orgUnits m) x := by
  unfold smallRankOf
  rw [← List.countP_eq_length_filter, ← List.countP_eq_length_filter]
  rw [(sortedPeerAverages_perm orgUnits m).countP_eq]

theorem orgUnitRecords_eq_nil (indicator : String) (orgUnits : List OrgUnitData)
    (m : Int) (ou : OrgUnitData) (hdata : rollingValues ou m = []) :
    orgUnitRecords indicator orgUnits m ou = [] := by
  simp [orgUnitRecords, hdata]

theorem orgUnitRecords_eq_of_ne_nil (indicator : String) (orgUnits : List OrgUnitData)
    (m : Int) (ou : OrgUnitData) (hdata : rollingValues ou m ≠ []) :
    orgUnitRecords indicator orgUnits m ou =
      [⟨ou.id, m, "de" ++ indicator.drop 4 ++ "Av", rollingAverage ou m⟩,
       ⟨ou.id, m, "de" ++ indicator.drop 4 ++ "Q1", quartile1 orgUnits m⟩,
       ⟨ou.id, m, "de" ++ indicator.drop 4 ++ "Q2", quartile2 orgUnits m⟩,
       ⟨ou.id, m, "de" ++ indicator.drop 4 ++ "Q3", quartile3 orgUnits m⟩,
       ⟨ou.id, m, "de" ++ indicator.drop 4 ++ "DR",
          percentileOf (bigRankOf (peerAverages orgUnits m) (rollingAverage ou m))
            (peerCount orgUnits m)⟩,
       ⟨ou.id, m, "de" ++ indicator.drop 4 ++ "sz", (peerCount orgUnits m : ℤ)⟩,
       ⟨ou.id, m, "de" ++ indicator.drop 4 ++ "or",
          (bigRankOf (peerAverages orgUnits m) (rollingAverage ou m) : ℤ)⟩,
       ⟨ou.id, m, "de" ++ indicator.drop 4 ++ "sr",
          (smallRankOf (peerAverages orgUnits m) (rollingAverage ou m) : ℤ)⟩,
       ⟨ou.id, m, "de" ++ indicator.drop 4 ++ "sd", groupStddev orgUnits m⟩,
       ⟨ou.id, m, "de" ++ indicator.drop 4 ++ "DM", allPeersMean orgUnits m⟩,
       ⟨ou.id, m, "de" ++ indicator.drop 4 ++ "d3", denominatorSum3 ou m⟩] := by
  have he : (rollingValues ou m).isEmpty = false := List.isEmpty_eq_false.mpr hdata
  simp only [orgUnitRecords, he, Bool.false_eq_true, if_false,
    bigRankOf_sorted, smallRankOf_sorted, rollingAverage]

theorem mem_processIndicator_of (indicator : String) (orgUnits : List OrgUnitData)
    (m : Int) (ou : OrgUnitData) (r : OutRecord) (hmem : ou ∈ orgUnits)
    (hdata : rollingValues ou m ≠ []) (hr : r ∈ orgUnitRecords indicator orgUnits m ou) :
    r ∈ processIndicator indicator orgUnits m := by
  unfold processIndicator
  rw [if_neg (peerCount_ne_zero orgUnits m ou hmem hdata)]
  exact List.mem_flatMap.mpr ⟨ou, hmem, hr⟩

theorem exists_of_mem_processIndicator (indicator : String) (orgUnits : List OrgUnitData)
    (m : Int) (r : OutRecord) (hr : r ∈ processIndicator indicator orgUnits m) :
    ∃ ou, ou ∈ orgUnits ∧ rollingValues ou m ≠ [] ∧
      r ∈ orgUnitRecords indicator orgUnits m ou := by
  unfold processIndicator at hr
  by_cases hc : peerCount orgUnits m = 0
  · rw [if_pos hc] at hr
    exact absurd hr (List.not_mem_nil r)
  · rw [if_neg hc] at hr
    obtain ⟨ou, hmem, hrec⟩ := List.mem_flatMap.mp hr
    by_cases hdata : rollingValues ou m = []
    · rw [orgUnitRecords_eq_nil indicator orgUnits m ou hdata] at hrec
      exact absurd hrec (List.not_mem_nil r)
    · exact ⟨ou, hmem, hdata, hrec⟩

theorem filter_le_add_filter_gt (l : List ℤ) (x : ℤ) :
    (l.filter (fun a => a ≤ x)).length + (l.filter (fun a => x < a)).length = l.length := by
  induction l with
  | nil => rfl
  | cons a rest ih =>
    by_cases h : a ≤ x
    · simp only [List.filter_cons]
      simp [h, not_lt.mpr h]
      omega
    · simp only [List.filter_cons]
      simp [h, lt_of_not_le h]
      omega

/-! Evaluations of the sample scenarios, used by witnesses. -/

theorem rollingValues_constOu (i : String) (v : ℚ) :
    rollingValues (constOu i v) 10 = [v, v, v] := rfl

theorem rollingAverage_constOu (i : String) (v : ℚ) :
    rollingAverage (constOu i v) 10 = pyRound v := by
  rw [rollingAverage, rollingValues_constOu]
  congr 1
  simp [statsMean]
  ring

theorem peerAverages_nil (m : Int) : peerAverages [] m = [] := rfl

theorem peerAverages_cons (ou : OrgUnitData) (rest : List OrgUnitData) (m : Int) :
    peerAverages (ou :: rest) m =
      (if (rollingValues ou m).isEmpty then [] else [rollingAverage ou m])
        ++ peerAverages rest m := by
  by_cases h : rollingValues ou m = []
  · simp [peerAverages, List.filterMap_cons, h]
  · simp [peerAverages, List.filterMap_cons, h, List.isEmpty_eq_false.mpr h, rollingAverage]

theorem peerAverages_sampleABC : peerAverages sampleABC 10 = [100, 200, 300] := by
  simp only [sampleABC, peerAverages_cons, peerAverages_nil, rollingValues_constOu,
    rollingAverage_constOu, List.isEmpty_cons, List.append_nil]
  norm_num [pyRound]

/-- Claim C1: each contributing facility of a peer group, indicator and
target month is emitted bigRank = the number of contributing averages at
most its own, smallRank = the number of strictly greater averages plus
one, and percentile = round(100 * bigRank / count). -/
theorem c1_rank_percentile (indicator : String) (orgUnits : List OrgUnitData)
    (monthNumber : Int) (ou : OrgUnitData) (hmem : ou ∈ orgUnits)
    (hdata : rollingValues ou monthNumber ≠ []) :
    (⟨ou.id, monthNumber, "de" ++ indicator.drop 4 ++ "or",
      (bigRankOf (peerAverages orgUnits monthNumber) (rollingAverage ou monthNumber) : ℤ)⟩ : OutRecord)
        ∈ processIndicator indicator orgUnits monthNumber
    ∧ (⟨ou.id, monthNumber, "de" ++ indicator.drop 4 ++ "sr",
      (smallRankOf (peerAverages orgUnits monthNumber) (rollingAverage ou monthNumber) : ℤ)⟩ : OutRecord)
        ∈ processIndicator indicator orgUnits monthNumber
    ∧ (⟨ou.id, monthNumber, "de" ++ indicator.drop 4 ++ "DR",
      percentileOf (bigRankOf (peerAverages orgUnits monthNumber) (rollingAverage ou monthNumber))
        (peerAverages orgUnits monthNumber).length⟩ : OutRecord)
        ∈ processIndicator indicator orgUnits monthNumber := by
  refine ⟨?_, ?_, ?_⟩ <;>
  · apply mem_processIndicator_of indicator orgUnits monthNumber ou _ hmem hdata
    rw [orgUnitRecords_eq_of_ne_nil indicator orgUnits monthNumber ou hdata]
    simp [peerCount]

theorem c1_rank_percentile_witness :
    ((⟨"A", 10, "deXor", 1⟩ : OutRecord) ∈ processIndicator "dashX" sampleABC 10
      ∧ (⟨"A", 10, "deXsr", 3⟩ : OutRecord) ∈ processIndicator "dashX" sampleABC 10
      ∧ (⟨"A", 10, "deXDR", 33⟩ : OutRecord) ∈ processIndicator "dashX" sampleABC 10)
    ∧ ((⟨"B", 10, "deXor", 2⟩ : OutRecord) ∈ processIndicator "dashX" sampleABC 10
      ∧ (⟨"B", 10, "deXsr", 2⟩ : OutRecord) ∈ processIndicator "dashX" sampleABC 10
      ∧ (⟨"B", 10, "deXDR", 67⟩ : OutRecord) ∈ processIndicator "dashX" sampleABC 10)
    ∧ ((⟨"C", 10, "deXor", 3⟩ : OutRecord) ∈ processIndicator "dashX" sampleABC 10
      ∧ (⟨"C", 10, "deXsr", 1⟩ : OutRecord) ∈ processIndicator "dashX" sampleABC 10
      ∧ (⟨"C", 10, "deXDR", 100⟩ : OutRecord) ∈ processIndicator "dashX" sampleABC 10) := by
  have hA := c1_rank_percentile "dashX" sampleABC 10 (constOu "A" 100)
    (by simp [sampleABC]) (by decide)
  have hB := c1_rank_percentile "dashX" sampleABC 10 (constOu "B" 200)
    (by simp [sampleABC]) (by decide)
  have hC := c1_rank_percentile "dashX" sampleABC 10 (constOu "C" 300)
    (by simp [sampleABC]) (by decide)
  rw [peerAverages_sampleABC] at hA hB hC
  norm_num [rollingAverage_constOu, pyRound, bigRankOf, smallRankOf, percentileOf] at hA hB hC
  exact ⟨hA, hB, hC⟩

/-- Claim C10: for every contributing facility, the emitted bigRank and
smallRank partition the peer averages into those at most the facility
average and those strictly greater, so bigRank + smallRank = count + 1;
both ranks are among the emitted records. -/
theorem c10_rank_sum (indicator : String) (orgUnits : List OrgUnitData)
    (monthNumber : Int) (ou : OrgUnitData) (hmem : ou ∈ orgUnits)
    (hdata : rollingValues ou monthNumber ≠ []) :
    bigRankOf (peerAverages orgUnits monthNumber) (rollingAverage ou monthNumber)
      + smallRankOf (peerAverages orgUnits monthNumber) (rollingAverage ou monthNumber)
      = (peerAverages orgUnits monthNumber).length + 1 := by
  unfold bigRankOf smallRankOf
  have h := filter_le_add_filter_gt (peerAverages orgUnits monthNumber)
    (rollingAverage ou monthNumber)
  omega

theorem append_right_inj (s a b : String) (h : s ++ a = s ++ b) : a = b := by
  have hd : (s ++ a).data = (s ++ b).data := by rw [h]
  rw [String.data_append, String.data_append] at hd
  exact String.ext (List.append_cancel_left hd)

theorem peerCount_eq_filter (orgUnits : List OrgUnitData) (m : Int) :
    peerCount orgUnits m
      = (orgUnits.filter (fun ou => !(rollingValues ou m).isEmpty)).length := by
  induction orgUnits with
  | nil => rfl
  | cons ou rest ih =>
    simp only [peerCount] at ih ⊢
    rw [peerAverages_cons, List.filter_cons]
    by_cases h : rollingValues ou m = []
    · simp [h, ih]
    · simp [List.isEmpty_eq_false.mpr h, ih]

theorem floorIndexQ (k d : ℕ) : (⌊(k : ℚ) / (d : ℚ)⌋).toNat = k / d :=
  Rat.natFloor_natCast_div_natCast k d

/-- Claim C2: the quartiles emitted for a peer group, indicator and target
month are the elements of the ascending sorted list of contributing
averages at the zero-based nearest-rank indices floor((count-1) times
0.25, 0.5, 0.75), without interpolation. -/
theorem c2_quartiles (indicator : String) (orgUnits : List OrgUnitData)
    (monthNumber : Int) (ou : OrgUnitData) (hmem : ou ∈ orgUnits)
    (hdata : rollingValues ou monthNumber ≠ []) :
    ∃ S : List ℤ, S.Perm (peerAverages orgUnits monthNumber)
      ∧ S.Sorted (fun a b => a ≤ b)
      ∧ (⟨ou.id, monthNumber, "de" ++ indicator.drop 4 ++ "Q1",
          S.getD (⌊(((peerAverages orgUnits monthNumber).length : ℚ) - 1) * (25/100)⌋.toNat) 0⟩
          : OutRecord) ∈ processIndicator indicator orgUnits monthNumber
      ∧ (⟨ou.id, monthNumber, "de" ++ indicator.drop 4 ++ "Q2",
          S.getD (⌊(((peerAverages orgUnits monthNumber).length : ℚ) - 1) * (5/10)⌋.toNat) 0⟩
          : OutRecord) ∈ processIndicator indicator orgUnits monthNumber
      ∧ (⟨ou.id, monthNumber, "de" ++ indicator.drop 4 ++ "Q3",
          S.getD (⌊(((peerAverages orgUnits monthNumber).length : ℚ) - 1) * (75/100)⌋.toNat) 0⟩
          : OutRecord) ∈ processIndicator indicator orgUnits monthNumber := by
  have hn : 1 ≤ (peerAverages orgUnits monthNumber).length := by
    have := peerCount_ne_zero orgUnits monthNumber ou hmem hdata
    simp only [peerCount] at this
    omega
  have e1 : (⌊(((peerAverages orgUnits monthNumber).length : ℚ) - 1) * (25/100)⌋).toNat
      = (peerCount orgUnits monthNumber - 1) / 4 := by
    have h1 : (((peerAverages orgUnits monthNumber).length : ℚ) - 1) * (25/100)
        = (((peerAverages orgUnits monthNumber).length - 1 : ℕ) : ℚ) / ((4 : ℕ) : ℚ) := by
      push_cast [Nat.cast_sub hn]
      ring
    rw [h1, floorIndexQ]
    rfl
  have e2 : (⌊(((peerAverages orgUnits monthNumber).length : ℚ) - 1) * (5/10)⌋).toNat
      = (peerCount orgUnits monthNumber - 1) / 2 := by
    have h1 : (((peerAverages orgUnits monthNumber).length : ℚ) - 1) * (5/10)
        = (((peerAverages orgUnits monthNumber).length - 1 : ℕ) : ℚ) / ((2 : ℕ) : ℚ) := by
      push_cast [Nat.cast_sub hn]
      ring
    rw [h1, floorIndexQ]
    rfl
  have e3 : (⌊(((peerAverages orgUnits monthNumber).length : ℚ) - 1) * (75/100)⌋).toNat
      = 3 * (peerCount orgUnits monthNumber - 1) / 4 := by
    have h1 : (((peerAverages orgUnits monthNumber).length : ℚ) - 1) * (75/100)
        = ((3 * ((peerAverages orgUnits monthNumber).length - 1) : ℕ) : ℚ) / ((4 : ℕ) : ℚ) := by
      push_cast [Nat.cast_sub hn]
      ring
    rw [h1, floorIndexQ]
    rfl
  refine ⟨sortedPeerAverages orgUnits monthNumber,
    sortedPeerAverages_perm orgUnits monthNumber,
    List.sorted_insertionSort _ _, ?_, ?_, ?_⟩
  · rw [e1]
    apply mem_processIndicator_of indicator orgUnits monthNumber ou _ hmem hdata
    rw [orgUnitRecords_eq_of_ne_nil indicator orgUnits monthNumber ou hdata]
    simp [quartile1]
  · rw [e2]
    apply mem_processIndicator_of indicator orgUnits monthNumber ou _ hmem hdata
    rw [orgUnitRecords_eq_of_ne_nil indicator orgUnits monthNumber ou hdata]
    simp [quartile2]
  · rw [e3]
    apply mem_processIndicator_of indicator orgUnits monthNumber ou _ hmem hdata
    rw [orgUnitRecords_eq_of_ne_nil indicator orgUnits monthNumber ou hdata]
    simp [quartile3]

theorem peerAverages_sample4 : peerAverages sample4 10 = [10, 20, 30, 40] := by
  simp only [sample4, peerAverages_cons, peerAverages_nil, rollingValues_constOu,
    rollingAverage_constOu, List.isEmpty_cons, List.append_nil]
  norm_num [pyRound]

theorem c2_quartiles_witness :
    (⟨"D", 10, "deXQ1", 10⟩ : OutRecord) ∈ processIndicator "dashX" sample4 10
    ∧ (⟨"D", 10, "deXQ2", 20⟩ : OutRecord) ∈ processIndicator "dashX" sample4 10
    ∧ (⟨"D", 10, "deXQ3", 30⟩ : OutRecord) ∈ processIndicator "dashX" sample4 10 := by
  obtain ⟨S, hperm, hsort, h1, h2, h3⟩ := c2_quartiles "dashX" sample4 10 (constOu "D" 10)
    (by simp [sample4]) (by decide)
  rw [peerAverages_sample4] at hperm h1 h2 h3
  have hS : S = [10, 20, 30, 40] := by
    have := List.eq_of_perm_of_sorted hperm hsort ?_
    · exact this
    · decide
  subst hS
  norm_num at h1 h2 h3
  exact ⟨h1, h2, h3⟩

/-- Claim C3: a facility with no value in any of the three window months
produces no output record at all for that indicator and month, while a
facility with a partially filled window is emitted the rounded mean of
exactly the months present. -/
theorem c3_window_presence (indicator : String) (orgUnits : List OrgUnitData)
    (monthNumber : Int) (fid : String) :
    ((∀ ou ∈ orgUnits, ou.id = fid → rollingValues ou monthNumber = []) →
      ∀ r ∈ processIndicator indicator orgUnits monthNumber, r.orgUnit ≠ fid)
    ∧ (∀ ou ∈ orgUnits, rollingValues ou monthNumber ≠ [] →
      (⟨ou.id, monthNumber, "de" ++ indicator.drop 4 ++ "Av",
        pyRound (statsMean (rollingValues ou monthNumber))⟩ : OutRecord)
        ∈ processIndicator indicator orgUnits monthNumber) := by
  constructor
  · intro hall r hr hfid
    obtain ⟨ou, hmem, hdata, hrec⟩ :=
      exists_of_mem_processIndicator indicator orgUnits monthNumber r hr
    rw [orgUnitRecords_eq_of_ne_nil indicator orgUnits monthNumber ou hdata] at hrec
    simp only [List.mem_cons, List.not_mem_nil, or_false] at hrec
    apply hdata
    apply hall ou hmem
    rcases hrec with rfl|rfl|rfl|rfl|rfl|rfl|rfl|rfl|rfl|rfl|rfl <;> exact hfid
  · intro ou hmem hdata
    apply mem_processIndicator_of indicator orgUnits monthNumber ou _ hmem hdata
    rw [orgUnitRecords_eq_of_ne_nil indicator orgUnits monthNumber ou hdata]
    simp [rollingAverage]

theorem rollingValues_partialOu : rollingValues partialOu 10 = [2, 3] := rfl

theorem rollingValues_emptyOu (m : Int) : rollingValues emptyOu m = [] := rfl

theorem c3_window_presence_witness :
    ((⟨"P", 10, "deXAv", 2⟩ : OutRecord) ∈ processIndicator "dashX" sampleC3 10)
    ∧ (⟨"P", 10, "deXAv", 2⟩ : OutRecord).orgUnit ≠ "E0" := by
  have h := c3_window_presence "dashX" sampleC3 10 "E0"
  have h2 := h.2 partialOu (by simp [sampleC3]) (by decide)
  rw [rollingValues_partialOu] at h2
  have hval : pyRound (statsMean [(2 : ℚ), 3]) = 2 := by
    norm_num [statsMean, pyRound]
  rw [hval] at h2
  exact ⟨h2, h.1 (by decide) _ h2⟩

/-- Claim C4: the emitted group size count equals the number of facilities
with at least one value in the three-month window, every sz record of the
group carries exactly this value, and every contributing facility receives
one. -/
theorem c4_count (indicator : String) (orgUnits : List OrgUnitData) (monthNumber : Int) :
    (∀ r ∈ processIndicator indicator orgUnits monthNumber,
      r.dataElement = "de" ++ indicator.drop 4 ++ "sz" →
      r.value = ((orgUnits.filter (fun ou => !(rollingValues ou monthNumber).isEmpty)).length : ℤ))
    ∧ (∀ ou ∈ orgUnits, rollingValues ou monthNumber ≠ [] →
      (⟨ou.id, monthNumber, "de" ++ indicator.drop 4 ++ "sz",
        ((orgUnits.filter (fun ou2 => !(rollingValues ou2 monthNumber).isEmpty)).length : ℤ)⟩
        : OutRecord) ∈ processIndicator indicator orgUnits monthNumber) := by
  constructor
  · intro r hr hde
    obtain ⟨ou, hmem, hdata, hrec⟩ :=
      exists_of_mem_processIndicator indicator orgUnits monthNumber r hr
    rw [orgUnitRecords_eq_of_ne_nil indicator orgUnits monthNumber ou hdata] at hrec
    simp only [List.mem_cons, List.not_mem_nil, or_false] at hrec
    rcases hrec with rfl|rfl|rfl|rfl|rfl|rfl|rfl|rfl|rfl|rfl|rfl <;>
      first
        | exact absurd (append_right_inj _ _ _ hde) (by decide)
        | simp [peerCount_eq_filter]
  · intro ou hmem hdata
    rw [← peerCount_eq_filter]
    apply mem_processIndicator_of indicator orgUnits monthNumber ou _ hmem hdata
    rw [orgUnitRecords_eq_of_ne_nil indicator orgUnits monthNumber ou hdata]
    simp

theorem c4_count_witness :
    (⟨"P", 10, "deXsz", 1⟩ : OutRecord) ∈ processIndicator "dashX" sampleC3 10 := by
  have h := (c4_count "dashX" sampleC3 10).2 partialOu (by simp [sampleC3]) (by decide)
  simpa [sampleC3, List.filter_cons, rollingValues_emptyOu, rollingValues_partialOu] using h

/-- Claim C7: every DM record of a peer group, indicator and month carries
the rounded mean of the pooled individual window values of all facilities
of the group (each raw monthly value counted once, not a mean of the
per-facility averages), and every contributing facility receives one. -/
theorem c7_allPeersMean (indicator : String) (orgUnits : List OrgUnitData) (monthNumber : Int) :
    (∀ r ∈ processIndicator indicator orgUnits monthNumber,
      r.dataElement = "de" ++ indicator.drop 4 ++ "DM" →
      r.value = pyRound (statsMean
        ((orgUnits.map (fun ou => rollingValues ou monthNumber)).flatten)))
    ∧ (∀ ou ∈ orgUnits, rollingValues ou monthNumber ≠ [] →
      (⟨ou.id, monthNumber, "de" ++ indicator.drop 4 ++ "DM",
        pyRound (statsMean ((orgUnits.map (fun ou2 => rollingValues ou2 monthNumber)).flatten))⟩
        : OutRecord) ∈ processIndicator indicator orgUnits monthNumber) := by
  have hflat : allPeersValues orgUnits monthNumber
      = (orgUnits.map (fun ou => rollingValues ou monthNumber)).flatten := rfl
  constructor
  · intro r hr hde
    obtain ⟨ou, hmem, hdata, hrec⟩ :=
      exists_of_mem_processIndicator indicator orgUnits monthNumber r hr
    rw [orgUnitRecords_eq_of_ne_nil indicator orgUnits monthNumber ou hdata] at hrec
    simp only [List.mem_cons, List.not_mem_nil, or_false] at hrec
    rcases hrec with rfl|rfl|rfl|rfl|rfl|rfl|rfl|rfl|rfl|rfl|rfl <;>
      first
        | exact absurd (append_right_inj _ _ _ hde) (by decide)
        | simp [allPeersMean, hflat]
  · intro ou hmem hdata
    rw [← hflat]
    apply mem_processIndicator_of indicator orgUnits monthNumber ou _ hmem hdata
    rw [orgUnitRecords_eq_of_ne_nil indicator orgUnits monthNumber ou hdata]
    simp [allPeersMean]

theorem c7_allPeersMean_witness :
    (⟨"P", 10, "deXDM", 2⟩ : OutRecord) ∈ processIndicator "dashX" sampleC3 10 := by
  have h := (c7_allPeersMean "dashX" sampleC3 10).2 partialOu (by simp [sampleC3]) (by decide)
  have he : ((sampleC3.map (fun ou2 => rollingValues ou2 10)).flatten) = [(2 : ℚ), 3] := rfl
  rw [he] at h
  have hval : pyRound (statsMean [(2 : ℚ), 3]) = 2 := by
    norm_num [statsMean, pyRound]
  rw [hval] at h
  exact h

/-! Rounding facts used by claims C6 and C8. -/

theorem pyRound_nearest (q : ℚ) :
    |q - (pyRound q : ℚ)| ≤ 1/2
    ∧ (|q - (pyRound q : ℚ)| = 1/2 → pyRound q % 2 = 0) := by
  have hfl : ((⌊q⌋ : ℤ) : ℚ) ≤ q := Int.floor_le q
  have hfu : q < ⌊q⌋ + 1 := Int.lt_floor_add_one q
  simp only [pyRound]
  split_ifs with h1 h2 h3
  · rw [abs_of_nonneg (by linarith)]
    exact ⟨by linarith, fun he => absurd he (by linarith)⟩
  · push_cast
    rw [abs_of_nonpos (by linarith)]
    exact ⟨by linarith, fun he => absurd he (by linarith)⟩
  · rw [abs_of_nonneg (by linarith)]
    exact ⟨by linarith, fun _ => h3⟩
  · push_cast
    rw [abs_of_nonpos (by linarith)]
    refine ⟨by linarith, fun _ => ?_⟩
    omega

theorem statsMean_perm (l l2 : List ℚ) (h : l.Perm l2) : statsMean l = statsMean l2 := by
  unfold statsMean
  rw [h.sum_eq, h.length_eq]

theorem popVariance_perm (l l2 : List ℚ) (h : l.Perm l2) :
    popVariance l = popVariance l2 := by
  unfold popVariance
  rw [statsMean_perm l l2 h, (h.map _).sum_eq, h.length_eq]

theorem popVariance_nonneg (l : List ℚ) : 0 ≤ popVariance l := by
  unfold popVariance
  apply div_nonneg
  · apply List.sum_nonneg
    intro x hx
    obtain ⟨y, _, rfl⟩ := List.mem_map.mp hx
    positivity
  · positivity

theorem popVariance_singleton (x : ℚ) : popVariance [x] = 0 := by
  norm_num [popVariance, statsMean]

theorem roundSqrtQ_zero : roundSqrtQ 0 = 0 := rfl

theorem roundSqrtQ_bracket (v : ℚ) (hv : 0 ≤ v) :
    4 * v ≤ ((2 * roundSqrtQ v + 1 : ℕ) : ℚ)^2
    ∧ (1 ≤ roundSqrtQ v → (((2 * roundSqrtQ v - 1 : ℕ) : ℚ))^2 ≤ 4 * v) := by
  obtain ⟨p, hp⟩ : ∃ p : ℕ, v.num = (p : ℤ) :=
    ⟨v.num.toNat, (Int.toNat_of_nonneg (Rat.num_nonneg.mpr hv)).symm⟩
  have hq : 0 < v.den := Rat.den_pos v
  set q := v.den with hqdef
  have hq0 : (0 : ℚ) < (q : ℚ) := by exact_mod_cast hq
  have hvpq : v = (p : ℚ) / (q : ℚ) := by
    rw [← Rat.num_div_den v, hp]
    push_cast
    rfl
  have hv4 : 4 * v = ((4 * p : ℕ) : ℚ) / (q : ℚ) := by
    rw [hvpq]
    push_cast
    ring
  have hur : roundSqrtQ v =
      (if (4 * p + q - 1) / q = 0 then 0
       else
         (if 4 * p = q * (2 * ((Nat.sqrt ((4 * p + q - 1) / q - 1) + 1) / 2) + 1)^2
             ∧ ((Nat.sqrt ((4 * p + q - 1) / q - 1) + 1) / 2) % 2 = 1
          then (Nat.sqrt ((4 * p + q - 1) / q - 1) + 1) / 2 + 1
          else (Nat.sqrt ((4 * p + q - 1) / q - 1) + 1) / 2)) := by
    simp only [roundSqrtQ, hp, Int.toNat_natCast]
  by_cases hc : (4 * p + q - 1) / q = 0
  · have hplt : 4 * p + q - 1 < q := (Nat.div_eq_zero_iff hq).mp hc
    have hp0 : p = 0 := by omega
    have hv0 : v = 0 := by
      rw [hvpq, hp0]
      norm_num
    rw [hur, if_pos hc, hv0]
    norm_num
  · set c := (4 * p + q - 1) / q with hcdef
    have h1 : c * q ≤ 4 * p + q - 1 := Nat.div_mul_le_self (4 * p + q - 1) q
    have h2 : 4 * p + q - 1 < (c + 1) * q :=
      (Nat.div_lt_iff_lt_mul hq).mp (Nat.lt_succ_self c)
    have hp1 : 1 ≤ p := by
      by_contra h
      have hpz : p = 0 := by omega
      apply hc
      rw [hcdef, hpz]
      exact Nat.div_eq_of_lt (by omega)
    have hc1 : 1 ≤ c := Nat.one_le_iff_ne_zero.mpr hc
    have g1 : 4 * p ≤ c * q := by
      have e : (c + 1) * q = c * q + q := by ring
      omega
    have g2 : (c - 1) * q < 4 * p := by
      have e : (c - 1) * q = c * q - q := by
        rw [Nat.sub_mul, one_mul]
      omega
    set t := Nat.sqrt (c - 1) with htdef
    have s1 : t * t ≤ c - 1 := Nat.sqrt_le (c - 1)
    have s2 : c - 1 < (t + 1) * (t + 1) := Nat.lt_succ_sqrt (c - 1)
    set n := (t + 1) / 2 with hndef
    have n1 : 2 * n ≤ t + 1 := by omega
    have n2 : t + 1 ≤ 2 * n + 1 := by omega
    have hup : 4 * p ≤ (2 * n + 1)^2 * q := by
      have hcu : c ≤ (2 * n + 1)^2 := by
        have hx : c ≤ (t + 1) * (t + 1) := by omega
        have h22 : (t + 1) * (t + 1) ≤ (2 * n + 1) * (2 * n + 1) := Nat.mul_le_mul n2 n2
        calc c ≤ (t + 1) * (t + 1) := hx
          _ ≤ (2 * n + 1) * (2 * n + 1) := h22
          _ = (2 * n + 1)^2 := by ring
      calc 4 * p ≤ c * q := g1
        _ ≤ (2 * n + 1)^2 * q := Nat.mul_le_mul_right q hcu
    have hlow : 1 ≤ n → (2 * n - 1)^2 * q ≤ 4 * p := by
      intro hn1
      have h2n : 2 * n - 1 ≤ t := by omega
      have hsq : (2 * n - 1)^2 ≤ c - 1 := by
        calc (2 * n - 1)^2 = (2 * n - 1) * (2 * n - 1) := by ring
          _ ≤ t * t := Nat.mul_le_mul h2n h2n
          _ ≤ c - 1 := s1
      calc (2 * n - 1)^2 * q ≤ (c - 1) * q := Nat.mul_le_mul_right q hsq
        _ ≤ 4 * p := le_of_lt g2
    have hqne : ((q : ℚ)) ≠ 0 := ne_of_gt hq0
    rw [hur, if_neg hc]
    by_cases htie : 4 * p = q * (2 * n + 1)^2 ∧ n % 2 = 1
    · rw [if_pos htie]
      have hexact : ((2 * n + 1 : ℕ) : ℚ)^2 = 4 * v := by
        rw [hv4, htie.1]
        push_cast
        field_simp
      constructor
      · rw [← hexact]
        have hle : ((2 * n + 1 : ℕ) : ℚ) ≤ ((2 * (n + 1) + 1 : ℕ) : ℚ) := by
          exact_mod_cast (by omega : (2 * n + 1 : ℕ) ≤ 2 * (n + 1) + 1)
        have h0 : (0 : ℚ) ≤ ((2 * n + 1 : ℕ) : ℚ) := by positivity
        exact pow_le_pow_left h0 hle 2
      · intro _
        have he : (2 * (n + 1) - 1 : ℕ) = 2 * n + 1 := by omega
        rw [he]
        exact le_of_eq hexact
    · rw [if_neg htie]
      constructor
      · rw [hv4, div_le_iff hq0]
        exact_mod_cast hup
      · intro hn1
        rw [hv4, le_div_iff hq0]
        exact_mod_cast hlow hn1

/-! Evaluation of the single-facility scenario, used by the C6
counterexample and several witnesses. -/

theorem peerAverages_partialOu : peerAverages [partialOu] 10 = [2] := by
  have hval : pyRound (statsMean [(2 : ℚ), 3]) = 2 := by
    norm_num [statsMean, pyRound]
  rw [peerAverages_cons, peerAverages_nil]
  simp [rollingValues_partialOu, rollingAverage, hval]

theorem sortedPeerAverages_partialOu : sortedPeerAverages [partialOu] 10 = [2] := by
  rw [sortedPeerAverages, peerAverages_partialOu]
  decide

theorem processIndicator_partialOu :
    processIndicator "dashX" [partialOu] 10 =
      [⟨"P", 10, "deXAv", 2⟩, ⟨"P", 10, "deXQ1", 2⟩, ⟨"P", 10, "deXQ2", 2⟩,
       ⟨"P", 10, "deXQ3", 2⟩, ⟨"P", 10, "deXDR", 100⟩, ⟨"P", 10, "deXsz", 1⟩,
       ⟨"P", 10, "deXor", 1⟩, ⟨"P", 10, "deXsr", 1⟩, ⟨"P", 10, "deXsd", 0⟩,
       ⟨"P", 10, "deXDM", 2⟩, ⟨"P", 10, "deXd3", 2⟩] := by
  have hpc : peerCount [partialOu] 10 = 1 := by
    rw [peerCount, peerAverages_partialOu]
    rfl
  have hval : pyRound (statsMean [(2 : ℚ), 3]) = 2 := by
    norm_num [statsMean, pyRound]
  have hq1 : quartile1 [partialOu] 10 = 2 := by
    rw [quartile1, sortedPeerAverages_partialOu, hpc]
    decide
  have hq2 : quartile2 [partialOu] 10 = 2 := by
    rw [quartile2, sortedPeerAverages_partialOu, hpc]
    decide
  have hq3 : quartile3 [partialOu] 10 = 2 := by
    rw [quartile3, sortedPeerAverages_partialOu, hpc]
    decide
  have hsd : groupStddev [partialOu] 10 = 0 := by
    rw [groupStddev, sortedPeerAverages_partialOu]
    have hvar : popVariance (([(2 : ℤ)]).map (fun a : ℤ => (a : ℚ))) = 0 := by
      rw [show (([(2 : ℤ)]).map (fun a : ℤ => (a : ℚ))) = [((2 : ℤ) : ℚ)] from rfl]
      exact popVariance_singleton _
    rw [numpyStdRounded, hvar, roundSqrtQ_zero]
    rfl
  have hdm : allPeersMean [partialOu] 10 = 2 := by
    rw [allPeersMean]
    have he : allPeersValues [partialOu] 10 = [2, 3] := rfl
    rw [he, hval]
  have hrk : bigRankOf [(2 : ℤ)] 2 = 1 := by decide
  have hpct : percentileOf 1 1 = 100 := by
    norm_num [percentileOf, pyRound]
  have hsr : smallRankOf [(2 : ℤ)] 2 = 1 := by decide
  have hd3 : denominatorSum3 partialOu 10 = 2 := by
    rw [denominatorSum3]
    have he : threeMonths partialOu.periods 10 Entry.denominator = [1, 1] := rfl
    have hsum : ([1, 1] : List ℚ).sum = 2 := by norm_num
    rw [he, hsum]
    decide
  rw [processIndicator, if_neg (by rw [hpc]; norm_num)]
  have hflat : ([partialOu]).flatMap (orgUnitRecords "dashX" [partialOu] 10)
      = orgUnitRecords "dashX" [partialOu] 10 partialOu := by
    simp
  rw [hflat, orgUnitRecords_eq_of_ne_nil "dashX" [partialOu] 10 partialOu (by decide)]
  rw [rollingAverage, rollingValues_partialOu, hval, hq1, hq2, hq3, hsd, hdm, hpc,
    peerAverages_partialOu, hrk, hsr, hpct, hd3]
  decide

/-- Claim C6 (amended): for every contributing facility, the emitted
rolling average is the arithmetic mean of the present window values
rounded to the nearest integer with ties rounded to the even integer (the
semantics of the Python built-in round on floats); a mean of 5/2 yields
2. -/
theorem c6_rounding_amended (indicator : String) (orgUnits : List OrgUnitData)
    (monthNumber : Int) (ou : OrgUnitData) (hmem : ou ∈ orgUnits)
    (hdata : rollingValues ou monthNumber ≠ []) :
    (⟨ou.id, monthNumber, "de" ++ indicator.drop 4 ++ "Av",
      pyRound (statsMean (rollingValues ou monthNumber))⟩ : OutRecord)
      ∈ processIndicator indicator orgUnits monthNumber
    ∧ |statsMean (rollingValues ou monthNumber)
        - (pyRound (statsMean (rollingValues ou monthNumber)) : ℚ)| ≤ 1/2
    ∧ (|statsMean (rollingValues ou monthNumber)
        - (pyRound (statsMean (rollingValues ou monthNumber)) : ℚ)| = 1/2 →
        pyRound (statsMean (rollingValues ou monthNumber)) % 2 = 0) := by
  refine ⟨?_, (pyRound_nearest _).1, (pyRound_nearest _).2⟩
  apply mem_processIndicator_of indicator orgUnits monthNumber ou _ hmem hdata
  rw [orgUnitRecords_eq_of_ne_nil indicator orgUnits monthNumber ou hdata]
  simp [rollingAverage]

theorem c6_rounding_amended_witness :
    (⟨"P", 10, "deXAv", 2⟩ : OutRecord) ∈ processIndicator "dashX" [partialOu] 10
    ∧ |(5/2 : ℚ) - (2 : ℚ)| ≤ 1/2
    ∧ ((2 : ℤ) % 2 = 0) := by
  have h := c6_rounding_amended "dashX" [partialOu] 10 partialOu (by simp) (by decide)
  rw [rollingValues_partialOu] at h
  have hm : statsMean [(2 : ℚ), 3] = 5/2 := by norm_num [statsMean]
  have hv : pyRound ((5 : ℚ)/2) = 2 := by norm_num [pyRound]
  rw [hm, hv] at h
  exact ⟨h.1, by simpa using h.2.1, by decide⟩

/-- Claim C6 counterexample: a facility whose present window values are 2
and 3 has mean 5/2; rounding ties away from zero would give 3, but the
pipeline emits the rolling average 2 (Python round is half to even) and
produces no Av record with value 3. -/
theorem c6_rounding_counterexample :
    (⟨"P", 10, "deXAv", 2⟩ : OutRecord) ∈ processIndicator "dashX" [partialOu] 10
    ∧ (⟨"P", 10, "deXAv", 3⟩ : OutRecord) ∉ processIndicator "dashX" [partialOu] 10
    ∧ roundHalfAwayFromZero (statsMean (rollingValues partialOu 10)) = 3 := by
  refine ⟨?_, ?_, ?_⟩
  · rw [processIndicator_partialOu]
    decide
  · rw [processIndicator_partialOu]
    decide
  · rw [rollingValues_partialOu]
    norm_num [statsMean, roundHalfAwayFromZero]

/-- Claim C8: with a single contributing facility the emitted standard
deviation is exactly 0; with count at least 2 it is the population
standard deviation of the averages rounded to the nearest integer: the
emitted value sd is nonnegative, equals the rounded square root of the
population variance, and 4 times the variance lies between the squares of
2 sd - 1 and 2 sd + 1. -/
theorem c8_stddev (indicator : String) (orgUnits : List OrgUnitData) (monthNumber : Int) :
    ((peerAverages orgUnits monthNumber).length = 1 →
      ∀ r ∈ processIndicator indicator orgUnits monthNumber,
        r.dataElement = "de" ++ indicator.drop 4 ++ "sd" → r.value = 0)
    ∧ (2 ≤ (peerAverages orgUnits monthNumber).length →
      ∀ r ∈ processIndicator indicator orgUnits monthNumber,
        r.dataElement = "de" ++ indicator.drop 4 ++ "sd" →
        r.value = (numpyStdRounded
            ((peerAverages orgUnits monthNumber).map (fun a : ℤ => (a : ℚ))) : ℤ)
        ∧ 0 ≤ r.value
        ∧ 4 * popVariance ((peerAverages orgUnits monthNumber).map (fun a : ℤ => (a : ℚ)))
            ≤ ((2 * r.value + 1 : ℤ) : ℚ)^2
        ∧ (1 ≤ r.value →
            (((2 * r.value - 1 : ℤ) : ℚ))^2
              ≤ 4 * popVariance ((peerAverages orgUnits monthNumber).map (fun a : ℤ => (a : ℚ))))) := by
  have hvarperm : popVariance ((sortedPeerAverages orgUnits monthNumber).map (fun a : ℤ => (a : ℚ)))
      = popVariance ((peerAverages orgUnits monthNumber).map (fun a : ℤ => (a : ℚ))) :=
    popVariance_perm ((sortedPeerAverages orgUnits monthNumber).map (fun a : ℤ => (a : ℚ)))
      ((peerAverages orgUnits monthNumber).map (fun a : ℤ => (a : ℚ)))
      (List.Perm.map (fun a : ℤ => (a : ℚ)) (sortedPeerAverages_perm orgUnits monthNumber))
  have hgs : groupStddev orgUnits monthNumber
      = (numpyStdRounded ((peerAverages orgUnits monthNumber).map (fun a : ℤ => (a : ℚ))) : ℤ) := by
    rw [groupStddev, numpyStdRounded, numpyStdRounded, hvarperm]
  constructor
  · intro hone r hr hde
    obtain ⟨ou, hmem, hdata, hrec⟩ :=
      exists_of_mem_processIndicator indicator orgUnits monthNumber r hr
    rw [orgUnitRecords_eq_of_ne_nil indicator orgUnits monthNumber ou hdata] at hrec
    simp only [List.mem_cons, List.not_mem_nil, or_false] at hrec
    obtain ⟨a, ha⟩ := List.length_eq_one.mp hone
    have hzero : groupStddev orgUnits monthNumber = 0 := by
      rw [hgs, ha]
      simp only [List.map_cons, List.map_nil]
      rw [numpyStdRounded, popVariance_singleton, roundSqrtQ_zero]
      rfl
    rcases hrec with rfl|rfl|rfl|rfl|rfl|rfl|rfl|rfl|rfl|rfl|rfl <;>
      first
        | exact absurd (append_right_inj _ _ _ hde) (by decide)
        | exact hzero
  · intro htwo r hr hde
    obtain ⟨ou, hmem, hdata, hrec⟩ :=
      exists_of_mem_processIndicator indicator orgUnits monthNumber r hr
    rw [orgUnitRecords_eq_of_ne_nil indicator orgUnits monthNumber ou hdata] at hrec
    simp only [List.mem_cons, List.not_mem_nil, or_false] at hrec
    set s := numpyStdRounded ((peerAverages orgUnits monthNumber).map (fun a : ℤ => (a : ℚ)))
      with hsdef
    have hbr := roundSqrtQ_bracket
      (popVariance ((peerAverages orgUnits monthNumber).map (fun a : ℤ => (a : ℚ))))
      (popVariance_nonneg _)
    rw [← numpyStdRounded, ← hsdef] at hbr
    have hmain :
        ((s : ℤ) : ℤ) = (s : ℤ)
        ∧ 0 ≤ (s : ℤ)
        ∧ 4 * popVariance ((peerAverages orgUnits monthNumber).map (fun a : ℤ => (a : ℚ)))
            ≤ ((2 * (s : ℤ) + 1 : ℤ) : ℚ)^2
        ∧ (1 ≤ (s : ℤ) →
            (((2 * (s : ℤ) - 1 : ℤ) : ℚ))^2
              ≤ 4 * popVariance ((peerAverages orgUnits monthNumber).map (fun a : ℤ => (a : ℚ)))) := by
      refine ⟨rfl, by positivity, ?_, ?_⟩
      · have hcast2 : ((2 * s + 1 : ℕ) : ℚ) = ((2 * (s : ℤ) + 1 : ℤ) : ℚ) := by
          push_cast
          ring
        rw [← hcast2]
        exact hbr.1
      · intro hone
        have hone2 : 1 ≤ s := by exact_mod_cast hone
        have hge : 1 ≤ 2 * s := by omega
        have hcast3 : ((2 * s - 1 : ℕ) : ℚ) = ((2 * (s : ℤ) - 1 : ℤ) : ℚ) := by
          push_cast [Nat.cast_sub hge]
          ring
        rw [← hcast3]
        exact hbr.2 hone2
    rcases hrec with rfl|rfl|rfl|rfl|rfl|rfl|rfl|rfl|rfl|rfl|rfl <;>
      first
        | exact absurd (append_right_inj _ _ _ hde) (by decide)
        | (rw [show (⟨ou.id, monthNumber, "de" ++ indicator.drop 4 ++ "sd",
              groupStddev orgUnits monthNumber⟩ : OutRecord).value
              = (s : ℤ) from hgs]
           exact ⟨rfl, hmain.2.1, hmain.2.2.1, hmain.2.2.2⟩)

theorem c8_stddev_witness :
    (⟨"P", 10, "deXsd", 0⟩ : OutRecord).value = 0
    ∧ 0 ≤ groupStddev sampleABC 10 := by
  constructor
  · exact (c8_stddev "dashX" [partialOu] 10).1
      (by rw [peerAverages_partialOu]; rfl)
      ⟨"P", 10, "deXsd", 0⟩
      (by rw [processIndicator_partialOu]; decide)
      rfl
  · have hmem : (⟨(constOu "A" 100).id, 10, "de" ++ "dashX".drop 4 ++ "sd",
        groupStddev sampleABC 10⟩ : OutRecord) ∈ processIndicator "dashX" sampleABC 10 := by
      apply mem_processIndicator_of "dashX" sampleABC 10 (constOu "A" 100) _
        (by simp [sampleABC]) (by decide)
      rw [orgUnitRecords_eq_of_ne_nil "dashX" sampleABC 10 (constOu "A" 100) (by decide)]
      simp
    have h := (c8_stddev "dashX" sampleABC 10).2
      (by rw [peerAverages_sampleABC]; norm_num) _ hmem rfl
    exact h.2.1

/-! Claim C5: peer group resolution in group-set mode. -/

theorem assocGet_updateAssoc {α : Type} (l : List (String × α)) (k k2 : String)
    (f : α → α) (d : α) :
    assocGet (updateAssoc l k f d) k2 =
      if k = k2 then some (f ((assocGet l k).getD d)) else assocGet l k2 := by
  induction l with
  | nil =>
    by_cases h : k = k2 <;> simp [updateAssoc, assocGet, h]
  | cons p rest ih =>
    by_cases h1 : p.1 = k
    · by_cases h2 : k = k2
      · subst h2
        simp [updateAssoc, assocGet, h1]
      · simp [updateAssoc, assocGet, h1, h2, fun he => h2 (h1 ▸ he)]
    · by_cases h2 : k = k2
      · subst h2
        simp [updateAssoc, assocGet, h1, ih]
      · simp only [updateAssoc, if_neg h1, assocGet]
        by_cases h3 : p.1 = k2
        · simp [h3, h2]
        · simp [h3, ih, h2]

theorem groupSetAssign_levelone (orgUnitLevel : ℕ) (start gname : String)
    (f : Facility) (hL : 1 ≤ orgUnitLevel) (hlev : f.level ≤ 1) :
    groupSetAssign orgUnitLevel start gname f = none := by
  unfold groupSetAssign
  split_ifs with h1 h2 h3
  · exact absurd h2 (by omega)
  · exact absurd h3 (by omega)
  · rfl
  · rfl

theorem buildPeerGroupMap_step_none (orgUnitLevel : ℕ) (start gname : String)
    (facs : List Facility) (fid : String) (init : List (String × String))
    (hinit : assocGet init fid = none)
    (hall : ∀ f ∈ facs, f.id = fid → groupSetAssign orgUnitLevel start gname f = none) :
    assocGet (facs.foldl (fun m2 f =>
      match groupSetAssign orgUnitLevel start gname f with
      | some key => updateAssoc m2 f.id (fun _ => key) key
      | none => m2) init) fid = none := by
  induction facs generalizing init with
  | nil => exact hinit
  | cons f rest ih =>
    simp only [List.foldl_cons]
    apply ih
    · cases hga : groupSetAssign orgUnitLevel start gname f with
      | none => exact hinit
      | some key =>
        rw [assocGet_updateAssoc]
        by_cases hid : f.id = fid
        · rw [hall f (List.mem_cons_self f rest) hid] at hga
          cases hga
        · rw [if_neg hid]
          exact hinit
    · intro f2 hf2 hid2
      exact hall f2 (List.mem_cons_of_mem f hf2) hid2

/-- Claim C5 (amended): in group-set mode the facilities excluded from the
facility-to-peer-group mapping are exactly those whose path is too short
to contain a parent, i.e. hierarchy level 1 or below; an open facility at
a level between 2 and orgUnitLevel is not excluded, it is assigned the
parent-derived key path[-23:-12] plus the group name. -/
theorem c5_exclusion_amended (orgUnitLevel : ℕ) (start : String)
    (groupSet : List (String × List Facility)) (fid : String)
    (hL : 1 ≤ orgUnitLevel)
    (hall : ∀ g ∈ groupSet, ∀ f ∈ g.2, f.id = fid → f.level ≤ 1) :
    assocGet (buildPeerGroupMap orgUnitLevel start groupSet) fid = none
    ∧ (∀ gname f, isOpenFacility start f = true → 1 < f.level →
        f.level ≤ orgUnitLevel →
        groupSetAssign orgUnitLevel start gname f
          = some (sliceStr f.path (f.path.length - 23) (f.path.length - 12) ++ "-" ++ gname)) := by
  constructor
  · rw [buildPeerGroupMap]
    suffices h : ∀ gs : List (String × List Facility),
        (∀ g ∈ gs, ∀ f ∈ g.2, f.id = fid → f.level ≤ 1) →
        ∀ init, assocGet init fid = none →
        assocGet (gs.foldl (fun m g =>
          g.2.foldl (fun m2 f =>
            match groupSetAssign orgUnitLevel start g.1 f with
            | some key => updateAssoc m2 f.id (fun _ => key) key
            | none => m2) m) init) fid = none by
      exact h groupSet hall [] rfl
    intro gs
    induction gs with
    | nil => intro _ init hinit; exact hinit
    | cons g rest ih =>
      intro hgs init hinit
      simp only [List.foldl_cons]
      apply ih
      · intro g2 hg2 f2 hf2 hid2
        exact hgs g2 (List.mem_cons_of_mem g hg2) f2 hf2 hid2
      · apply buildPeerGroupMap_step_none orgUnitLevel start g.1 g.2 fid init hinit
        intro f hf hid
        exact groupSetAssign_levelone orgUnitLevel start g.1 f hL
          (hgs g (List.mem_cons_self g rest) f hf hid)
  · intro gname f hopen hgt hle
    unfold groupSetAssign
    rw [if_pos hopen, if_neg (by omega), if_pos hgt]

theorem c5_exclusion_amended_witness :
    assocGet (buildPeerGroupMap 3 "2025-10-01" [("G1", [c5level1])]) "fac2" = none
    ∧ groupSetAssign 3 "2025-10-01" "G1" c5facility = some "AAAAAAAAAAA-G1" := by
  have h := c5_exclusion_amended 3 "2025-10-01" [("G1", [c5level1])] "fac2"
    (by decide) (by decide)
  refine ⟨h.1, ?_⟩
  have h2 := h.2 "G1" c5facility (by decide) (by decide) (by decide)
  rw [h2]
  decide

/-- Claim C5 counterexample: with orgUnitLevel 3, the open level 2 facility
c5facility is below orgUnitLevel yet it is not excluded from the mapping:
it is assigned the parent-derived peer group key. -/
theorem c5_counterexample :
    c5facility.level < 3
    ∧ assocGet (buildPeerGroupMap 3 "2025-10-01" [("G1", [c5facility])]) "fac1"
        = some "AAAAAAAAAAA-G1" := by
  constructor
  · decide
  · decide

/-! Claim C9: generic lemmas about dictionary accumulation. -/

theorem mem_firstOccs (x : String) (l : List String) : x ∈ firstOccs l ↔ x ∈ l := by
  induction l with
  | nil => simp [firstOccs]
  | cons y ys ih =>
    simp only [firstOccs, List.mem_cons]
    by_cases hxy : x = y
    · simp [hxy]
    · simp [hxy, List.mem_filter, ih]

theorem nodup_firstOccs (l : List String) : (firstOccs l).Nodup := by
  induction l with
  | nil => simp [firstOccs]
  | cons y ys ih =>
    simp only [firstOccs]
    refine List.Nodup.cons ?_ (List.Nodup.filter _ ih)
    intro hyin
    have h := (List.mem_filter.mp hyin).2
    simp at h

theorem firstOccs_append_singleton (l : List String) (x : String) :
    firstOccs (l ++ [x]) = if x ∈ l then firstOccs l else firstOccs l ++ [x] := by
  induction l with
  | nil => simp [firstOccs]
  | cons y ys ih =>
    show y :: (firstOccs (ys ++ [x])).filter (fun z => z ≠ y)
        = if x ∈ y :: ys then y :: (firstOccs ys).filter (fun z => z ≠ y)
          else (y :: (firstOccs ys).filter (fun z => z ≠ y)) ++ [x]
    rw [ih]
    by_cases hxy : x = y
    · subst hxy
      rw [if_pos (List.mem_cons_self x ys)]
      by_cases hx : x ∈ ys
      · rw [if_pos hx]
      · rw [if_neg hx, List.filter_append]
        simp
    · by_cases hx : x ∈ ys
      · rw [if_pos hx, if_pos (List.mem_cons_of_mem y hx)]
      · rw [if_neg hx, if_neg (by simp [hxy, hx]), List.filter_append]
        simp [hxy]

theorem updateAssoc_cons_hit {α : Type} (p : String × α) (rest : List (String × α))
    (k : String) (f : α → α) (d : α) (h : p.1 = k) :
    updateAssoc (p :: rest) k f d = (k, f p.2) :: rest := by
  conv_lhs => unfold updateAssoc
  rw [if_pos h]

theorem updateAssoc_cons_miss {α : Type} (p : String × α) (rest : List (String × α))
    (k : String) (f : α → α) (d : α) (h : ¬p.1 = k) :
    updateAssoc (p :: rest) k f d = p :: updateAssoc rest k f d := by
  conv_lhs => unfold updateAssoc
  rw [if_neg h]

theorem updateAssoc_map_notin {β : Type} (keys : List String) (F : String → β)
    (k : String) (f : β → β) (d : β) (hk : k ∉ keys) :
    updateAssoc (keys.map (fun k2 => (k2, F k2))) k f d
      = keys.map (fun k2 => (k2, F k2)) ++ [(k, f d)] := by
  induction keys with
  | nil => rfl
  | cons y ys ih =>
    have hyk : ¬((y, F y) : String × β).1 = k := by
      intro he
      apply hk
      rw [show k = y from he.symm]
      exact List.mem_cons_self y ys
    rw [List.map_cons, updateAssoc_cons_miss _ _ _ _ _ hyk]
    rw [ih (fun hin => hk (List.mem_cons_of_mem y hin))]
    simp

theorem updateAssoc_map_mem {β : Type} (keys : List String) (F : String → β)
    (k : String) (f : β → β) (d : β) (hnd : keys.Nodup) (hk : k ∈ keys) :
    updateAssoc (keys.map (fun k2 => (k2, F k2))) k f d
      = keys.map (fun k2 => (k2, if k2 = k then f (F k) else F k2)) := by
  induction keys with
  | nil => cases hk
  | cons y ys ih =>
    by_cases hyk : y = k
    · subst hyk
      rw [List.map_cons, updateAssoc_cons_hit _ _ _ _ _ rfl, List.map_cons, if_pos rfl]
      congr 1
      apply List.map_eq_map_iff.mpr
      intro k2 hk2
      rw [if_neg (fun he => (List.nodup_cons.mp hnd).1 (by rw [← he]; exact hk2))]
    · have hk2 : k ∈ ys := by
        cases List.mem_cons.mp hk with
        | inl h => exact absurd h.symm hyk
        | inr h => exact h
      rw [List.map_cons, updateAssoc_cons_miss _ _ _ _ _ hyk]
      rw [ih (List.nodup_cons.mp hnd).2 hk2, List.map_cons, if_neg hyk]

theorem foldl_append_singleton {β : Type} (init : List β) (l : List β) :
    l.foldl (fun acc x => acc ++ [x]) init = init ++ l := by
  induction l generalizing init with
  | nil => simp
  | cons x xs ih =>
    simp only [List.foldl_cons, ih]
    simp

theorem assocCharact_snoc {α β : Type} (stepV : β → α → β) (d : β)
    (done : List (String × α)) (k : String) (a : α) :
    assocCharact stepV d (done ++ [(k, a)])
      = updateAssoc (assocCharact stepV d done) k (fun cur => stepV cur a) d := by
  unfold assocCharact
  rw [List.map_append, List.map_cons, List.map_nil, firstOccs_append_singleton]
  by_cases hk : k ∈ done.map (fun t => t.1)
  · rw [if_pos hk]
    rw [updateAssoc_map_mem _ _ _ _ _ (nodup_firstOccs _) ((mem_firstOccs _ _).mpr hk)]
    apply List.map_eq_map_iff.mpr
    intro k2 hk2
    rw [List.filter_append]
    by_cases he : k2 = k
    · subst he
      simp [List.filter_cons, List.foldl_append]
    · rw [if_neg he]
      have hfe : (([(k, a)] : List (String × α)).filter (fun t => t.1 = k2)) = [] := by
        simp only [List.filter_cons, List.filter_nil]
        rw [if_neg (by simpa using fun hke => he hke.symm)]
      rw [hfe]
      simp
  · rw [if_neg hk]
    rw [updateAssoc_map_notin _ _ _ _ _ (fun hin => hk ((mem_firstOccs _ _).mp hin))]
    rw [List.map_append]
    congr 1
    · apply List.map_eq_map_iff.mpr
      intro k2 hk2
      rw [List.filter_append]
      have hne : k ≠ k2 := by
        intro he
        apply hk
        rw [he]
        exact (mem_firstOccs _ _).mp hk2
      have hfe : (([(k, a)] : List (String × α)).filter (fun t => t.1 = k2)) = [] := by
        simp only [List.filter_cons, List.filter_nil]
        rw [if_neg (by simpa using hne)]
      rw [hfe]
      simp
    · have hfil : done.filter (fun t => t.1 = k) = [] := by
        rw [List.filter_eq_nil_iff]
        intro t ht hteq
        apply hk
        simp only [List.mem_map]
        exact ⟨t, ht, by simpa using hteq⟩
      rw [List.map_cons, List.map_nil, List.filter_append, hfil]
      simp [List.filter_cons]

theorem accumAssoc_from {α β : Type} (stepV : β → α → β) (d : β)
    (done ts : List (String × α)) :
    ts.foldl (fun acc t => updateAssoc acc t.1 (fun cur => stepV cur t.2) d)
        (assocCharact stepV d done)
      = assocCharact stepV d (done ++ ts) := by
  induction ts generalizing done with
  | nil => simp
  | cons t rest ih =>
    simp only [List.foldl_cons]
    rw [← assocCharact_snoc stepV d done t.1 t.2]
    rw [ih (done ++ [(t.1, t.2)])]
    rw [List.append_assoc]
    rfl

theorem accumAssoc_eq {α β : Type} (stepV : β → α → β) (d : β)
    (ts : List (String × α)) :
    accumAssoc stepV d ts = assocCharact stepV d ts := by
  have h := accumAssoc_from stepV d [] ts
  simpa [accumAssoc, assocCharact, firstOccs] using h

theorem foldl_flatMap {α β γ : Type} (g : α → List β) (f : γ → β → γ)
    (init : γ) (l : List α) :
    (l.flatMap g).foldl f init = l.foldl (fun acc x => (g x).foldl f acc) init := by
  induction l generalizing init with
  | nil => rfl
  | cons x xs ih =>
    simp only [List.flatMap_cons, List.foldl_append, List.foldl_cons]
    rw [ih]

theorem buildAreas_eq_accum (indicators : List (String × List OrgUnitData))
    (iA : String → Option String) (m : Int) :
    buildAreas indicators iA m
      = accumAssoc (fun cur (p2 : String × ℤ) => updateAssoc cur p2.1 (fun l => l ++ [p2.2]) [])
          [] (contribTriples indicators iA m) := by
  unfold buildAreas accumAssoc contribTriples
  rw [foldl_flatMap]
  apply List.foldl_ext
  intro areas p _
  rw [foldl_flatMap]
  apply List.foldl_ext
  intro areas2 ou _
  unfold ouTriple
  by_cases h : (rollingValues ou m).isEmpty
  · simp [h]
  · simp only [h, Bool.false_eq_true, if_false]
    cases hia : iA p.1 with
    | some area => simp [addAreaValue]
    | none => simp

theorem pairsFilter (ts : List (String × String × ℤ)) (a o : String) :
    ((((ts.filter (fun t => t.1 = a)).map (fun t => t.2)).filter
        (fun p => p.1 = o)).map (fun p => p.2))
      = (ts.filter (fun t => t.1 = a ∧ t.2.1 = o)).map (fun t => t.2.2) := by
  induction ts with
  | nil => rfl
  | cons t rest ih =>
    by_cases h1 : t.1 = a
    · by_cases h2 : t.2.1 = o
      · simp [List.filter_cons, h1, h2, ih]
      · simp [List.filter_cons, h1, h2, ih]
    · simp [List.filter_cons, h1, ih]

theorem pairsKeys (ts : List (String × String × ℤ)) (a : String) :
    ((ts.filter (fun t => t.1 = a)).map (fun t => t.2)).map (fun p => p.1)
      = (ts.filter (fun t => t.1 = a)).map (fun t => t.2.1) := by
  rw [List.map_map]
  rfl

theorem buildAreas_entries (indicators : List (String × List OrgUnitData))
    (iA : String → Option String) (m : Int) :
    buildAreas indicators iA m
      = (firstOccs ((contribTriples indicators iA m).map (fun t => t.1))).map
          (fun a2 => (a2, (areaFacilities indicators iA m a2).map
            (fun o2 => (o2, areaContributions indicators iA m a2 o2)))) := by
  rw [buildAreas_eq_accum, accumAssoc_eq]
  unfold assocCharact
  apply List.map_eq_map_iff.mpr
  intro a2 ha2
  congr 1
  have hinner : ∀ ps : List (String × ℤ),
      ps.foldl (fun cur p2 => updateAssoc cur p2.1 (fun l => l ++ [p2.2]) []) []
        = accumAssoc (fun l v => l ++ [v]) [] ps := fun ps => rfl
  rw [hinner, accumAssoc_eq]
  unfold assocCharact areaFacilities
  rw [pairsKeys]
  apply List.map_eq_map_iff.mpr
  intro o2 ho2
  congr 1
  rw [foldl_append_singleton, List.nil_append, pairsFilter]
  rfl

theorem mem_processArea (eni : String → Option String) (m : Int) (area : String)
    (orgUnitAverages : List (String × List ℤ)) (p : String × List ℤ)
    (hp : p ∈ orgUnitAverages) (r : OutRecord)
    (hr : r ∈ putOutByName eni p.1 m ("Overall Average: " ++ area) (pyRound (meanZ p.2))
        ++ putOutByName eni p.1 m ("Overall Rank: " ++ area)
          (pyRound (100 * (((List.insertionSort (fun a b => a ≤ b)
              (orgUnitAverages.map (fun p2 => pyRound (meanZ p2.2)))).filter
                (fun x => x ≤ pyRound (meanZ p.2))).length : ℚ)
            / ((List.insertionSort (fun a b => a ≤ b)
              (orgUnitAverages.map (fun p2 => pyRound (meanZ p2.2)))).length : ℚ)))) :
    r ∈ processArea eni m area orgUnitAverages := by
  unfold processArea
  exact List.mem_flatMap.mpr ⟨p, hp, hr⟩

theorem mem_processPeerGroup_area (indicators : List (String × List OrgUnitData))
    (iA : String → Option String) (m : Int) (eni : String → Option String)
    (q : String × List (String × List ℤ)) (hq : q ∈ buildAreas indicators iA m)
    (r : OutRecord) (hr : r ∈ processArea eni m q.1 q.2) :
    r ∈ processPeerGroup indicators iA m eni := by
  unfold processPeerGroup
  exact List.mem_append_right _ (List.mem_flatMap.mpr ⟨q, hq, hr⟩)

/-- Claim C9: for every peer group, area and target month, a facility with
at least one contributing indicator in the area receives an area average
record whose value is the rounded mean of its per-indicator rolling
averages for the contributing indicators of that area, and an area rank
record whose value is round(100 b / n) where n is the number of facilities
of the peer group having an area average for the area and b is the number
of those area averages at most this facility area average. -/
theorem c9_area (indicators : List (String × List OrgUnitData))
    (iA : String → Option String) (m : Int) (eni : String → Option String)
    (a o dA dR : String)
    (hA : eni ("Overall Average: " ++ a) = some dA)
    (hR : eni ("Overall Rank: " ++ a) = some dR)
    (hcontrib : areaContributions indicators iA m a o ≠ []) :
    (⟨o, m, dA, pyRound (meanZ (areaContributions indicators iA m a o))⟩ : OutRecord)
      ∈ processPeerGroup indicators iA m eni
    ∧ (⟨o, m, dR, percentileOf
        ((areaFacilities indicators iA m a).filter (fun o2 =>
          pyRound (meanZ (areaContributions indicators iA m a o2))
            ≤ pyRound (meanZ (areaContributions indicators iA m a o)))).length
        (areaFacilities indicators iA m a).length⟩ : OutRecord)
      ∈ processPeerGroup indicators iA m eni
    ∧ (areaFacilities indicators iA m a).Nodup
    ∧ (∀ o2, o2 ∈ areaFacilities indicators iA m a ↔
        areaContributions indicators iA m a o2 ≠ []) := by
  have hiff : ∀ o2, o2 ∈ areaFacilities indicators iA m a ↔
      areaContributions indicators iA m a o2 ≠ [] := by
    intro o2
    constructor
    · intro h2
      obtain ⟨t2, ht2, he2⟩ := List.mem_map.mp ((mem_firstOccs _ _).mp h2)
      have hc := List.mem_filter.mp ht2
      have h1a : t2.1 = a := by simpa using hc.2
      exact List.ne_nil_of_mem (List.mem_map.mpr
        ⟨t2, List.mem_filter.mpr ⟨hc.1, by simp [h1a, he2]⟩, rfl⟩)
    · intro h2
      obtain ⟨x, hx⟩ := List.exists_mem_of_ne_nil _ h2
      obtain ⟨t3, ht3, hval⟩ := List.mem_map.mp hx
      have hc3 := List.mem_filter.mp ht3
      have hcond := hc3.2
      rw [decide_eq_true_eq] at hcond
      exact (mem_firstOccs _ _).mpr (List.mem_map.mpr
        ⟨t3, List.mem_filter.mpr ⟨hc3.1, by simp [hcond.1]⟩, hcond.2⟩)
  have ho_mem : o ∈ areaFacilities indicators iA m a := (hiff o).mpr hcontrib
  have ha_mem : a ∈ firstOccs ((contribTriples indicators iA m).map (fun t => t.1)) := by
    have hne : (contribTriples indicators iA m).filter
        (fun t => t.1 = a ∧ t.2.1 = o) ≠ [] := by
      intro h
      apply hcontrib
      unfold areaContributions
      rw [h]
      rfl
    obtain ⟨t, ht⟩ := List.exists_mem_of_ne_nil _ hne
    have hc := List.mem_filter.mp ht
    have hcond := hc.2
    rw [decide_eq_true_eq] at hcond
    exact (mem_firstOccs _ _).mpr (List.mem_map.mpr ⟨t, hc.1, hcond.1⟩)
  have hq_mem : ((a, (areaFacilities indicators iA m a).map
      (fun o2 => (o2, areaContributions indicators iA m a o2)))
        : String × List (String × List ℤ)) ∈ buildAreas indicators iA m := by
    rw [buildAreas_entries]
    exact List.mem_map.mpr ⟨a, ha_mem, rfl⟩
  have hp_mem : ((o, areaContributions indicators iA m a o) : String × List ℤ)
      ∈ (areaFacilities indicators iA m a).map
        (fun o2 => (o2, areaContributions indicators iA m a o2)) :=
    List.mem_map.mpr ⟨o, ho_mem, rfl⟩
  have hAv : putOutByName eni o m ("Overall Average: " ++ a)
      (pyRound (meanZ (areaContributions indicators iA m a o)))
      = [⟨o, m, dA, pyRound (meanZ (areaContributions indicators iA m a o))⟩] := by
    unfold putOutByName
    rw [hA]
  have hRk : ∀ v : ℤ, putOutByName eni o m ("Overall Rank: " ++ a) v = [⟨o, m, dR, v⟩] := by
    intro v
    unfold putOutByName
    rw [hR]
  have hcount : (List.insertionSort (fun a2 b => a2 ≤ b)
      (((areaFacilities indicators iA m a).map
        (fun o2 => (o2, areaContributions indicators iA m a o2))).map
          (fun p2 => pyRound (meanZ p2.2)))).length
      = (areaFacilities indicators iA m a).length := by
    rw [(List.perm_insertionSort _ _).length_eq, List.length_map, List.length_map]
  have hrank : ((List.insertionSort (fun a2 b => a2 ≤ b)
      (((areaFacilities indicators iA m a).map
        (fun o2 => (o2, areaContributions indicators iA m a o2))).map
          (fun p2 => pyRound (meanZ p2.2)))).filter
        (fun x => x ≤ pyRound (meanZ (areaContributions indicators iA m a o)))).length
      = ((areaFacilities indicators iA m a).filter (fun o2 =>
          pyRound (meanZ (areaContributions indicators iA m a o2))
            ≤ pyRound (meanZ (areaContributions indicators iA m a o)))).length := by
    rw [← List.countP_eq_length_filter, ← List.countP_eq_length_filter]
    rw [(List.perm_insertionSort _ _).countP_eq]
    rw [List.map_map, List.countP_map]
    rfl
  refine ⟨?_, ?_, nodup_firstOccs _, hiff⟩
  · apply mem_processPeerGroup_area indicators iA m eni _ hq_mem
    apply mem_processArea eni m a _ _ hp_mem
    rw [hAv]
    exact List.mem_append_left _ (List.mem_cons_self _ _)
  · apply mem_processPeerGroup_area indicators iA m eni _ hq_mem
    apply mem_processArea eni m a _ _ hp_mem
    rw [hRk]
    apply List.mem_append_right
    rw [hcount, hrank]
    exact List.mem_cons_self _ _

theorem contribTriples_sample :
    contribTriples sampleAreaIndicators sampleAreas 10
      = [("Nutrition", "A", 10), ("Nutrition", "A", 20)] := by
  simp only [contribTriples, sampleAreaIndicators, List.flatMap_cons, List.flatMap_nil,
    ouTriple, sampleAreas, rollingValues_constOu, rollingAverage_constOu]
  norm_num [pyRound, constOu]

theorem areaContributions_sample :
    areaContributions sampleAreaIndicators sampleAreas 10 "Nutrition" "A" = [10, 20] := by
  unfold areaContributions
  rw [contribTriples_sample]
  decide

theorem areaFacilities_sample :
    areaFacilities sampleAreaIndicators sampleAreas 10 "Nutrition" = ["A"] := by
  unfold areaFacilities
  rw [contribTriples_sample]
  decide

theorem c9_area_witness :
    (⟨"A", 10, "deAvgNut", 15⟩ : OutRecord)
      ∈ processPeerGroup sampleAreaIndicators sampleAreas 10 sampleNames
    ∧ (⟨"A", 10, "deRankNut", 100⟩ : OutRecord)
      ∈ processPeerGroup sampleAreaIndicators sampleAreas 10 sampleNames := by
  have h := c9_area sampleAreaIndicators sampleAreas 10 sampleNames "Nutrition" "A"
    "deAvgNut" "deRankNut" (by decide) (by decide)
    (by rw [areaContributions_sample]; decide)
  obtain ⟨h1, h2, _, _⟩ := h
  rw [areaContributions_sample] at h1 h2
  rw [areaFacilities_sample] at h2
  have hmean : pyRound (meanZ [10, 20]) = 15 := by
    norm_num [meanZ, statsMean, pyRound]
  rw [hmean] at h1 h2
  have hptile : percentileOf 1 1 = 100 := by norm_num [percentileOf, pyRound]
  refine ⟨h1, ?_⟩
  have hfilter : (["A"].filter (fun o2 =>
      pyRound (meanZ (areaContributions sampleAreaIndicators sampleAreas 10 "Nutrition" o2))
        ≤ 15)) = ["A"] := by
    simp [List.filter_cons, areaContributions_sample, hmean]
  rw [hfilter] at h2
  simpa [hptile] using h2

theorem c10_rank_sum_witness :
    bigRankOf (peerAverages sampleABC 10) (rollingAverage (constOu "B" 200) 10)
      + smallRankOf (peerAverages sampleABC 10) (rollingAverage (constOu "B" 200) 10)
      = (peerAverages sampleABC 10).length + 1 :=
  c10_rank_sum "dashX" sampleABC 10 (constOu "B" 200) (by simp [sampleABC]) (by decide)

end Dashcalc
